import Mathlib

/-!
Verification of the Qrack `CoherentUnit` dense state-vector simulator
(`src/qregister.cpp`) against its natural-language specification.

The register is shallowly embedded: amplitudes are exact complex numbers
(`ℂ`, standing for the source's double-precision `Complex16`), the state
vector is a total function `ℕ → ℂ` whose meaningful indices are
`[0, 2^qubitCount)`, and `runningNorm : ℝ` mirrors the deferred-norm
field.  Fallible operations return `Except (QErr × CoherentUnit)
CoherentUnit`, the error carrying the register state at the moment the
exception is thrown.  Random draws (`Rand()` results) are passed in as
explicit real parameters.
-/

namespace Qrack

/-- Error kind thrown by the source via `std::invalid_argument`. -/
inductive QErr : Type where
  | invalidArgument : QErr
deriving DecidableEq

/-- The register: qubit count, dense amplitude buffer, deferred norm. -/
structure CoherentUnit : Type where
  qubitCount : ℕ
  stateVec : ℕ → ℂ
  runningNorm : ℝ

/-- `maxQPower = 2^qubitCount`, the number of permutation-basis states. -/
def maxQPower (cu : CoherentUnit) : ℕ := 2 ^ cu.qubitCount

/-- `UpdateRunningNorm`: `runningNorm = par_norm(...) = sqrt (Σ |amp|²)`. -/
noncomputable def UpdateRunningNorm (cu : CoherentUnit) : CoherentUnit :=
  { cu with runningNorm :=
      Real.sqrt (∑ j ∈ Finset.range (maxQPower cu), Complex.normSq (cu.stateVec j)) }

/-- `NormalizeState`: divide by `runningNorm`, zero amplitudes whose squared
magnitude falls below the `1e-15` denormal guard, reset `runningNorm` to 1. -/
noncomputable def NormalizeState (cu : CoherentUnit) : CoherentUnit :=
  { cu with
    stateVec := fun j =>
      let z := cu.stateVec j / (cu.runningNorm : ℂ)
      if Complex.normSq z < 1e-15 then 0 else z
    runningNorm := 1 }

/-- `Prob(qubit)`: the sum the source accumulates after its renormalize
guard, `Σ` over indices with the qubit's bit set of `norm(stateVec[lcv])`. -/
noncomputable def Prob (qubitIndex : ℕ) (cu : CoherentUnit) : ℝ :=
  ∑ lcv ∈ (Finset.range (maxQPower cu)).filter
      (fun lcv => lcv &&& 2 ^ qubitIndex = 2 ^ qubitIndex),
    Complex.normSq (cu.stateVec lcv)

/-- `M(qubitIndex)`: measurement gate.  `u` is the `Rand()` draw compared
against the probability, `φ` is the fresh random phase angle. -/
noncomputable def M (u φ : ℝ) (qubitIndex : ℕ) (cu0 : CoherentUnit) :
    Bool × CoherentUnit :=
  let cu := if cu0.runningNorm = 1 then cu0 else NormalizeState cu0
  let qPowers := 2 ^ qubitIndex
  let oneChance := Prob qubitIndex cu
  let result : Bool := decide (u < oneChance) && decide (0 < oneChance)
  if result then
    let nrmlzr := if 0 < oneChance then oneChance else 1
    let nrm : ℂ := (⟨Real.cos φ, Real.sin φ⟩ : ℂ) / (nrmlzr : ℂ)
    (true, UpdateRunningNorm
      { cu with stateVec := fun lcv =>
          if lcv &&& qPowers = 0 then 0 else nrm * cu.stateVec lcv })
  else
    let nrmlzr := if oneChance < 1 then Real.sqrt (1 - oneChance) else 1
    let nrm : ℂ := (⟨Real.cos φ, Real.sin φ⟩ : ℂ) / (nrmlzr : ℂ)
    (false, UpdateRunningNorm
      { cu with stateVec := fun lcv =>
          if lcv &&& qPowers = 0 then nrm * cu.stateVec lcv else 0 })

/-- Destination index of one basis state under `INC`'s permutation body:
extract the register value, add, wrap at `2^length`, reassemble. -/
def incTarget (n toAdd start length : ℕ) (lcv : ℕ) : ℕ :=
  let lengthPower := 2 ^ length
  let inOutMask := (lengthPower - 1) <<< start
  let otherMask := (2 ^ n - 1) ^^^ inOutMask
  let otherRes := lcv &&& otherMask
  let inOutRes := lcv &&& inOutMask
  let inOutInt := inOutRes >>> start
  let outInt := inOutInt + toAdd
  if outInt < lengthPower then (outInt <<< start) ||| otherRes
  else ((outInt - lengthPower) <<< start) ||| otherRes

/-- Destination index of one basis state under `DEC`'s permutation body.
The source computes `inOutInt - toSub + lengthPower` in unsigned
arithmetic; for `toSub < lengthPower` that equals
`inOutInt + lengthPower - toSub` in `ℕ`. -/
def decTarget (n toSub start length : ℕ) (lcv : ℕ) : ℕ :=
  let lengthPower := 2 ^ length
  let inOutMask := (lengthPower - 1) <<< start
  let otherMask := (2 ^ n - 1) ^^^ inOutMask
  let otherRes := lcv &&& otherMask
  let inOutRes := lcv &&& inOutMask
  let inOutInt := inOutRes >>> start
  let outInt := inOutInt + lengthPower - toSub
  if outInt < lengthPower then (outInt <<< start) ||| otherRes
  else ((outInt - lengthPower) <<< start) ||| otherRes

/-- Scatter a state vector through a permutation of basis indices: the
zero-filled shadow buffer receives `old[lcv]` at `target lcv`. -/
noncomputable def scatter (n : ℕ) (target : ℕ → ℕ) (s : ℕ → ℂ) : ℕ → ℂ :=
  fun j => ∑ lcv ∈ Finset.range (2 ^ n), if target lcv = j then s lcv else 0

/-- `INC(toAdd, start, length)`: add an integer to a register, modulo
`2^length`.  A no-op when the reduced addend or the length is zero. -/
noncomputable def INC (toAdd start length : ℕ) (cu : CoherentUnit) : CoherentUnit :=
  let lengthPower := 2 ^ length
  let toAdd' := toAdd % lengthPower
  if 0 < length ∧ 0 < toAdd' then
    { cu with stateVec :=
        scatter cu.qubitCount (incTarget cu.qubitCount toAdd' start length) cu.stateVec }
  else cu

/-- `DEC(toSub, start, length)`: subtract an integer from a register,
modulo `2^length`.  A no-op when the reduced subtrahend or the length is
zero. -/
noncomputable def DEC (toSub start length : ℕ) (cu : CoherentUnit) : CoherentUnit :=
  let lengthPower := 2 ^ length
  let toSub' := toSub % lengthPower
  if 0 < length ∧ 0 < toSub' then
    { cu with stateVec :=
        scatter cu.qubitCount (decTarget cu.qubitCount toSub' start length) cu.stateVec }
  else cu

/-! ### Bitmask kit for the register scatter permutations -/

lemma testBit_shiftLeft_of_lt {w length : ℕ} (start i : ℕ) (hw : w < 2 ^ length) :
    (w <<< start).testBit i =
      (decide (start ≤ i) && decide (i < start + length) && w.testBit (i - start)) := by
  simp only [Nat.testBit_shiftLeft, ge_iff_le]
  by_cases h1 : start ≤ i
  · by_cases h2 : i < start + length
    · simp [h1, h2]
    · have hfalse : w.testBit (i - start) = false :=
        Nat.testBit_eq_false_of_lt
          (lt_of_lt_of_le hw (Nat.pow_le_pow_right (by norm_num) (by omega)))
      simp [h1, h2, hfalse]
  · simp [h1]

lemma testBit_inOutMask (start length i : ℕ) :
    (((2 ^ length - 1) <<< start).testBit i) =
      (decide (start ≤ i) && decide (i < start + length)) := by
  rw [testBit_shiftLeft_of_lt start i (Nat.sub_lt (Nat.pos_pow_of_pos length (by norm_num)) one_pos)]
  by_cases h1 : start ≤ i
  · by_cases h2 : i < start + length
    · simp [h1, h2, Nat.testBit_two_pow_sub_one]
      omega
    · simp [h2]
  · simp [h1]

lemma testBit_otherMask {n start length : ℕ} (hsl : start + length ≤ n) (i : ℕ) :
    (((2 ^ n - 1) ^^^ ((2 ^ length - 1) <<< start)).testBit i) =
      (decide (i < n) && !(decide (start ≤ i) && decide (i < start + length))) := by
  rw [Nat.testBit_xor, Nat.testBit_two_pow_sub_one, testBit_inOutMask]
  by_cases h1 : start ≤ i
  · by_cases h2 : i < start + length
    · have : i < n := by omega
      simp [h1, h2, this]
    · simp [h1, h2]
  · simp [h1]

section RegisterDecompose

variable {n start length lcv : ℕ}

/-- The register field of a basis index, `(lcv & inOutMask) >> start`. -/
def regVal (start length lcv : ℕ) : ℕ :=
  (lcv &&& ((2 ^ length - 1) <<< start)) >>> start

/-- The untouched bits of a basis index, `lcv & otherMask`. -/
def otherBits (n start length lcv : ℕ) : ℕ :=
  lcv &&& ((2 ^ n - 1) ^^^ ((2 ^ length - 1) <<< start))

lemma regVal_lt : regVal start length lcv < 2 ^ length := by
  have h1 : lcv &&& ((2 ^ length - 1) <<< start) ≤ (2 ^ length - 1) <<< start :=
    Nat.and_le_right
  have h2 : regVal start length lcv ≤ ((2 ^ length - 1) <<< start) >>> start := by
    unfold regVal
    simp only [Nat.shiftRight_eq_div_pow]
    exact Nat.div_le_div_right h1
  have h3 : ((2 ^ length - 1) <<< start) >>> start = 2 ^ length - 1 := by
    rw [Nat.shiftLeft_eq, Nat.shiftRight_eq_div_pow]
    exact Nat.mul_div_cancel (2 ^ length - 1) (Nat.pos_pow_of_pos start (by norm_num))
  have h4 : 0 < 2 ^ length := Nat.pos_pow_of_pos length (by norm_num)
  omega

lemma reassemble_and_inOutMask (hsl : start + length ≤ n) {w : ℕ} (hw : w < 2 ^ length) :
    ((w <<< start) ||| otherBits n start length lcv) &&& ((2 ^ length - 1) <<< start) =
      w <<< start := by
  apply Nat.eq_of_testBit_eq
  intro i
  rw [Nat.testBit_land, Nat.testBit_lor, testBit_inOutMask]
  unfold otherBits
  rw [Nat.testBit_land, testBit_otherMask hsl, testBit_shiftLeft_of_lt start i hw]
  by_cases h1 : start ≤ i
  · by_cases h2 : i < start + length
    · simp [h1, h2]
    · simp [h1, h2]
  · simp [h1]

lemma reassemble_and_otherMask (hsl : start + length ≤ n) {w : ℕ} (hw : w < 2 ^ length) :
    ((w <<< start) ||| otherBits n start length lcv) &&&
        ((2 ^ n - 1) ^^^ ((2 ^ length - 1) <<< start)) =
      otherBits n start length lcv := by
  apply Nat.eq_of_testBit_eq
  intro i
  rw [Nat.testBit_land, Nat.testBit_lor]
  unfold otherBits
  rw [Nat.testBit_land, testBit_otherMask hsl, testBit_shiftLeft_of_lt start i hw]
  by_cases h1 : start ≤ i
  · by_cases h2 : i < start + length
    · simp [h1, h2]
    · simp [h1, h2, Bool.and_assoc]
  · simp [h1, Bool.and_assoc]

lemma shiftLeft_shiftRight_cancel {w s : ℕ} : (w <<< s) >>> s = w := by
  rw [Nat.shiftLeft_eq, Nat.shiftRight_eq_div_pow]
  exact Nat.mul_div_cancel w (Nat.pos_pow_of_pos s (by norm_num))

lemma regVal_reassemble (hsl : start + length ≤ n) {w : ℕ} (hw : w < 2 ^ length) :
    regVal start length ((w <<< start) ||| otherBits n start length lcv) = w := by
  unfold regVal
  rw [@reassemble_and_inOutMask n start length lcv hsl w hw, shiftLeft_shiftRight_cancel]

lemma reassemble_eq_self (hsl : start + length ≤ n) (hlcv : lcv < 2 ^ n) :
    ((regVal start length lcv <<< start) ||| otherBits n start length lcv) = lcv := by
  apply Nat.eq_of_testBit_eq
  intro i
  rw [Nat.testBit_lor, testBit_shiftLeft_of_lt start i (@regVal_lt start length lcv)]
  unfold regVal otherBits
  rw [Nat.testBit_land, testBit_otherMask hsl]
  by_cases h1 : start ≤ i
  · by_cases h2 : i < start + length
    · have hi : start + (i - start) = i := by omega
      rw [Nat.testBit_shiftRight, hi, Nat.testBit_land, testBit_inOutMask]
      simp [h1, h2]
    · by_cases h3 : i < n
      · simp [h1, h2, h3]
      · have : lcv.testBit i = false :=
          Nat.testBit_eq_false_of_lt
            (lt_of_lt_of_le hlcv (Nat.pow_le_pow_right (by norm_num) (by omega)))
        simp [h1, h2, h3, this]
  · by_cases h3 : i < n
    · simp [h1, h3]
    · have : lcv.testBit i = false :=
        Nat.testBit_eq_false_of_lt
          (lt_of_lt_of_le hlcv (Nat.pow_le_pow_right (by norm_num) (by omega)))
      simp [h1, h3, this]

lemma reassemble_lt (hsl : start + length ≤ n) (hlcv : lcv < 2 ^ n) {w : ℕ}
    (hw : w < 2 ^ length) :
    (w <<< start) ||| otherBits n start length lcv < 2 ^ n := by
  apply Nat.or_lt_two_pow
  · calc w <<< start = w * 2 ^ start := Nat.shiftLeft_eq w start
    _ < 2 ^ length * 2 ^ start :=
        mul_lt_mul_of_pos_right hw (Nat.pos_pow_of_pos start (by norm_num))
    _ = 2 ^ (length + start) := (pow_add 2 length start).symm
    _ ≤ 2 ^ n := Nat.pow_le_pow_right (by norm_num) (by omega)
  · exact lt_of_le_of_lt Nat.and_le_left hlcv

end RegisterDecompose

section IncDec

variable {n start length lcv : ℕ}

lemma incTarget_eq {a : ℕ} (ha : a < 2 ^ length) :
    incTarget n a start length lcv =
      (((regVal start length lcv + a) % 2 ^ length) <<< start) |||
        otherBits n start length lcv := by
  unfold incTarget regVal otherBits
  simp only []
  by_cases h : ((lcv &&& (2 ^ length - 1) <<< start) >>> start) + a < 2 ^ length
  · rw [if_pos h, Nat.mod_eq_of_lt h]
  · rw [if_neg h, Nat.mod_eq_sub_mod (by omega),
      Nat.mod_eq_of_lt (by
        have := @regVal_lt start length lcv
        unfold regVal at this
        omega)]

lemma decTarget_eq {a : ℕ} (ha : a < 2 ^ length) :
    decTarget n a start length lcv =
      (((regVal start length lcv + 2 ^ length - a) % 2 ^ length) <<< start) |||
        otherBits n start length lcv := by
  unfold decTarget regVal otherBits
  simp only []
  have hv := @regVal_lt start length lcv
  unfold regVal at hv
  by_cases h : ((lcv &&& (2 ^ length - 1) <<< start) >>> start) + 2 ^ length - a < 2 ^ length
  · rw [if_pos h, Nat.mod_eq_of_lt h]
  · rw [if_neg h, Nat.mod_eq_sub_mod (by omega), Nat.mod_eq_of_lt (by omega)]

lemma incTarget_lt (hsl : start + length ≤ n) (hlcv : lcv < 2 ^ n) {a : ℕ}
    (ha : a < 2 ^ length) : incTarget n a start length lcv < 2 ^ n := by
  rw [incTarget_eq ha]
  exact reassemble_lt hsl hlcv
    (Nat.mod_lt _ (Nat.pos_pow_of_pos length (by norm_num)))

lemma decTarget_incTarget (hsl : start + length ≤ n) (hlcv : lcv < 2 ^ n) {a : ℕ}
    (ha : a < 2 ^ length) :
    decTarget n a start length (incTarget n a start length lcv) = lcv := by
  have hL : 0 < 2 ^ length := Nat.pos_pow_of_pos length (by norm_num)
  have hv := @regVal_lt start length lcv
  set v := regVal start length lcv with hvdef
  set w := (v + a) % 2 ^ length with hwdef
  have hw : w < 2 ^ length := Nat.mod_lt _ hL
  rw [incTarget_eq ha, decTarget_eq ha,
    regVal_reassemble hsl hw]
  have hoth : otherBits n start length ((w <<< start) ||| otherBits n start length lcv) =
      otherBits n start length lcv := reassemble_and_otherMask hsl hw
  rw [hoth]
  have harith : (w + 2 ^ length - a) % 2 ^ length = v := by
    by_cases hcase : v + a < 2 ^ length
    · have hw' : w = v + a := by rw [hwdef, Nat.mod_eq_of_lt hcase]
      rw [hw']
      have : v + a + 2 ^ length - a = v + 2 ^ length := by omega
      rw [this, Nat.add_mod_right, Nat.mod_eq_of_lt hv]
    · have hw' : w = v + a - 2 ^ length := by
        rw [hwdef, Nat.mod_eq_sub_mod (by omega), Nat.mod_eq_of_lt (by omega)]
      rw [hw']
      have : v + a - 2 ^ length + 2 ^ length - a = v := by omega
      rw [this, Nat.mod_eq_of_lt hv]
  rw [harith]
  exact reassemble_eq_self hsl hlcv

lemma scatter_left_inverse {n : ℕ} {f g : ℕ → ℕ}
    (hf : ∀ l < 2 ^ n, f l < 2 ^ n) (hgf : ∀ l < 2 ^ n, g (f l) = l)
    (s : ℕ → ℂ) {j : ℕ} (hj : j < 2 ^ n) :
    scatter n g (scatter n f s) j = s j := by
  unfold scatter
  have h1 : ∀ l2 : ℕ,
      (if g l2 = j then (∑ l1 ∈ Finset.range (2 ^ n), if f l1 = l2 then s l1 else 0) else 0) =
        ∑ l1 ∈ Finset.range (2 ^ n), if f l1 = l2 ∧ g l2 = j then s l1 else 0 := by
    intro l2
    by_cases h : g l2 = j
    · simp [h]
    · simp [h]
  rw [Finset.sum_congr rfl (fun l2 _ => h1 l2), Finset.sum_comm]
  have h2 : ∀ l1 ∈ Finset.range (2 ^ n),
      (∑ l2 ∈ Finset.range (2 ^ n), if f l1 = l2 ∧ g l2 = j then s l1 else 0) =
        if g (f l1) = j then s l1 else 0 := by
    intro l1 hl1
    rw [Finset.sum_eq_single (f l1)]
    · simp
    · intro b _ hne
      have : ¬(f l1 = b) := fun h => hne h.symm
      simp [this]
    · intro hnotin
      exact absurd (Finset.mem_range.mpr (hf l1 (Finset.mem_range.mp hl1))) hnotin
  rw [Finset.sum_congr rfl h2,
    Finset.sum_congr rfl (fun l1 hl1 => by rw [hgf l1 (Finset.mem_range.mp hl1)]),
    Finset.sum_ite_eq' (Finset.range (2 ^ n)) j s]
  simp [Finset.mem_range.mpr hj]

end IncDec

/-- Claim C4: for every state and register window inside the unit
(`start + length ≤ qubitCount`), `INC(k, start, length)` followed by
`DEC(k, start, length)` restores the state vector: `INC` moves each basis
amplitude to the index whose register value is `(v + k) mod 2^length`
with all other bits unchanged, `DEC` to `(v - k) mod 2^length`, and the
composition is the identity on every amplitude. -/
theorem INC_DEC_roundtrip (cu : CoherentUnit) (toAdd start length : ℕ)
    (hsl : start + length ≤ cu.qubitCount) :
    (DEC toAdd start length (INC toAdd start length cu)).qubitCount = cu.qubitCount ∧
      ∀ j < 2 ^ cu.qubitCount,
        (DEC toAdd start length (INC toAdd start length cu)).stateVec j =
          cu.stateVec j := by
  by_cases hguard : 0 < length ∧ 0 < toAdd % 2 ^ length
  · constructor
    · simp [INC, DEC, hguard]
    · intro j hj
      have ha : toAdd % 2 ^ length < 2 ^ length :=
        Nat.mod_lt _ (Nat.pos_pow_of_pos length (by norm_num))
      simp only [INC, DEC, hguard, and_true, if_pos]
      exact scatter_left_inverse
        (fun l hl => incTarget_lt hsl hl ha)
        (fun l hl => decTarget_incTarget hsl hl ha)
        cu.stateVec hj
  · constructor
    · simp [INC, DEC, hguard]
    · intro j _
      simp [INC, DEC, hguard]

/-- Witness for C4 at a concrete input: a 3-qubit register, incrementing
the 2-bit field at position 1 by 3 and decrementing again restores the
basis state `|101⟩`. -/
theorem INC_DEC_roundtrip_witness :
    (0 : ℕ) + 2 ≤ 3 ∧
      ((DEC 3 0 2 (INC 3 0 2 ⟨3, fun j => if j = 5 then 1 else 0, 1⟩)).qubitCount = 3 ∧
        ∀ j < 2 ^ 3,
          (DEC 3 0 2 (INC 3 0 2 ⟨3, fun j => if j = 5 then 1 else 0, 1⟩)).stateVec j =
            (if j = 5 then (1 : ℂ) else 0)) :=
  ⟨by norm_num,
    INC_DEC_roundtrip ⟨3, fun j => if j = 5 then 1 else 0, 1⟩ 3 0 2 (by norm_num)⟩

/-! ### Cohere (tensor-product register composition) -/

/-- `Cohere(toCopy)`: combine a copy of another CoherentUnit after the
last bit index of this one.  Both operands are normalized first when
their `runningNorm` differs from 1; the combined amplitude is the product
`stateVec[lcv & startMask] * toCopy.stateVec[(lcv & endMask) >> n]`. -/
noncomputable def Cohere (cu0 toCopy0 : CoherentUnit) : CoherentUnit :=
  let cu := if cu0.runningNorm = 1 then cu0 else NormalizeState cu0
  let toCopy := if toCopy0.runningNorm = 1 then toCopy0 else NormalizeState toCopy0
  let nQubitCount := cu.qubitCount + toCopy.qubitCount
  let startMask := 2 ^ cu.qubitCount - 1
  let endMask := (2 ^ toCopy.qubitCount - 1) <<< cu.qubitCount
  UpdateRunningNorm
    { qubitCount := nQubitCount
      stateVec := fun lcv =>
        cu.stateVec (lcv &&& startMask) *
          toCopy.stateVec ((lcv &&& endMask) >>> cu.qubitCount)
      runningNorm := cu.runningNorm }

lemma and_shiftLeft_shiftRight (k x n : ℕ) :
    (k &&& (x <<< n)) >>> n = (k >>> n) &&& x := by
  apply Nat.eq_of_testBit_eq
  intro i
  rw [Nat.testBit_shiftRight, Nat.testBit_land, Nat.testBit_land,
    Nat.testBit_shiftRight, Nat.testBit_shiftLeft]
  simp [Nat.add_sub_cancel_left]

/-- Claim C3: for normalized operands, `self.Cohere(other)` yields a
register of `n + m` qubits whose amplitude at every combined index `k` is
`self[k & ((1<<n)-1)] * other[(k >> n) & ((1<<m)-1)]` of the pre-call
states; an operand whose `runningNorm` differs from 1 would be normalized
before the product is formed (the normalization branch is skipped exactly
when `runningNorm = 1`). -/
theorem Cohere_tensor_product (self other : CoherentUnit)
    (h1 : self.runningNorm = 1) (h2 : other.runningNorm = 1) :
    (Cohere self other).qubitCount = self.qubitCount + other.qubitCount ∧
      ∀ k, (Cohere self other).stateVec k =
        self.stateVec (k &&& (2 ^ self.qubitCount - 1)) *
          other.stateVec ((k >>> self.qubitCount) &&& (2 ^ other.qubitCount - 1)) := by
  constructor
  · simp [Cohere, UpdateRunningNorm, h1, h2]
  · intro k
    simp only [Cohere, UpdateRunningNorm, h1, h2, if_pos]
    rw [and_shiftLeft_shiftRight]

/-- Witness for C3: cohering two normalized single-qubit registers. -/
theorem Cohere_tensor_product_witness :
    (⟨1, fun j => if j = 0 then 1 else 0, 1⟩ : CoherentUnit).runningNorm = 1 ∧
      (⟨1, fun j => if j = 1 then 1 else 0, 1⟩ : CoherentUnit).runningNorm = 1 ∧
      ((Cohere ⟨1, fun j => if j = 0 then 1 else 0, 1⟩
          ⟨1, fun j => if j = 1 then 1 else 0, 1⟩).qubitCount = 1 + 1 ∧
        ∀ k, (Cohere ⟨1, fun j => if j = 0 then 1 else 0, 1⟩
            ⟨1, fun j => if j = 1 then 1 else 0, 1⟩).stateVec k =
          (if k &&& (2 ^ 1 - 1) = 0 then (1 : ℂ) else 0) *
            (if (k >>> 1) &&& (2 ^ 1 - 1) = 1 then (1 : ℂ) else 0)) :=
  ⟨rfl, rfl,
    Cohere_tensor_product ⟨1, fun j => if j = 0 then 1 else 0, 1⟩
      ⟨1, fun j => if j = 1 then 1 else 0, 1⟩ rfl rfl⟩

/-! ### The 2x2 kernel and the gate layer built on it -/

/-- A 2x2 complex matrix, the source's `Complex16 mtrx[4]` in row-major
order. -/
structure Mtx2 : Type where
  m00 : ℂ
  m01 : ℂ
  m10 : ℂ
  m11 : ℂ

/-- Modelled from the spec: the body of `Apply2x2` lives outside the
provided sources (only its call sites are in `qregister.cpp`), so it is
modelled from specification section 4.C.  For each index pair
`(k|offset1, k|offset2)` obtained by fixing the `bitMask` bits, the new
amplitudes are `(m00 a + m01 b, m10 a + m11 b)` where `(a, b)` are the
old amplitudes at the pair; indices whose masked bits match neither
offset are untouched.  `doCalcNorm` replaces `runningNorm` with the
square root of the summed squared magnitudes written by the kernel,
otherwise `runningNorm` is left unchanged. -/
noncomputable def Apply2x2 (offset1 offset2 : ℕ) (m : Mtx2) (bitMask : ℕ)
    (doCalcNorm : Bool) (cu : CoherentUnit) : CoherentUnit :=
  let s := cu.stateVec
  let ns : ℕ → ℂ := fun j =>
    if j &&& bitMask = offset1 then
      m.m00 * s j + m.m01 * s ((j ^^^ offset1) ||| offset2)
    else if j &&& bitMask = offset2 then
      m.m10 * s ((j ^^^ offset2) ||| offset1) + m.m11 * s j
    else s j
  { cu with
    stateVec := ns
    runningNorm :=
      if doCalcNorm then
        Real.sqrt (∑ j ∈ Finset.range (maxQPower cu),
          if j &&& bitMask = offset1 ∨ j &&& bitMask = offset2 then
            Complex.normSq (ns j)
          else 0)
      else cu.runningNorm }

/-- `ApplySingleBit`: one bit in the power list, offsets `0` and `1<<q`. -/
noncomputable def ApplySingleBit (qubitIndex : ℕ) (m : Mtx2) (doCalcNorm : Bool)
    (cu : CoherentUnit) : CoherentUnit :=
  Apply2x2 0 (2 ^ qubitIndex) m (2 ^ qubitIndex) doCalcNorm cu

/-- `ApplyControlled2x2`: offsets place the control at 1 in both rows. -/
noncomputable def ApplyControlled2x2 (control target : ℕ) (m : Mtx2)
    (doCalcNorm : Bool) (cu : CoherentUnit) : CoherentUnit :=
  Apply2x2 (2 ^ control + 2 ^ target) (2 ^ control) m
    ((2 ^ control) ||| (2 ^ target)) doCalcNorm cu

/-- `ApplyAntiControlled2x2`: offsets place the control at 0 in both rows. -/
noncomputable def ApplyAntiControlled2x2 (control target : ℕ) (m : Mtx2)
    (doCalcNorm : Bool) (cu : CoherentUnit) : CoherentUnit :=
  Apply2x2 0 (2 ^ target) m ((2 ^ control) ||| (2 ^ target)) doCalcNorm cu

/-- The Pauli X matrix used throughout the source. -/
def pauliX : Mtx2 := ⟨0, 1, 1, 0⟩

/-- `X(qubitIndex)`: NOT gate. -/
noncomputable def X (qubitIndex : ℕ) (cu : CoherentUnit) : CoherentUnit :=
  ApplySingleBit qubitIndex pauliX false cu

/-- `RT(radians, qubitIndex)`: phase shift `diag(1, e^{i radians/2})`. -/
noncomputable def RT (radians : ℝ) (qubitIndex : ℕ) (cu : CoherentUnit) : CoherentUnit :=
  ApplySingleBit qubitIndex
    ⟨1, 0, 0, ⟨Real.cos (radians / 2), Real.sin (radians / 2)⟩⟩ true cu

/-- `RX(radians, qubitIndex)`: Pauli-x rotation. -/
noncomputable def RX (radians : ℝ) (qubitIndex : ℕ) (cu : CoherentUnit) : CoherentUnit :=
  ApplySingleBit qubitIndex
    ⟨⟨Real.cos (radians / 2), 0⟩, ⟨0, -Real.sin (radians / 2)⟩,
      ⟨0, -Real.sin (radians / 2)⟩, ⟨Real.cos (radians / 2), 0⟩⟩ true cu

/-- `RY(radians, qubitIndex)`: Pauli-y rotation. -/
noncomputable def RY (radians : ℝ) (qubitIndex : ℕ) (cu : CoherentUnit) : CoherentUnit :=
  ApplySingleBit qubitIndex
    ⟨⟨Real.cos (radians / 2), 0⟩, ⟨-Real.sin (radians / 2), 0⟩,
      ⟨Real.sin (radians / 2), 0⟩, ⟨Real.cos (radians / 2), 0⟩⟩ true cu

/-- `RZ(radians, qubitIndex)`: Pauli-z rotation. -/
noncomputable def RZ (radians : ℝ) (qubitIndex : ℕ) (cu : CoherentUnit) : CoherentUnit :=
  ApplySingleBit qubitIndex
    ⟨⟨Real.cos (radians / 2), -Real.sin (radians / 2)⟩, 0,
      0, ⟨Real.cos (radians / 2), Real.sin (radians / 2)⟩⟩ true cu

/-- `RTDyad(numerator, denominator, qubitIndex)`: the source calls
`RT((M_PI * numerator * 2) / denominator, qubitIndex)`. -/
noncomputable def RTDyad (numerator denominator : ℤ) (qubitIndex : ℕ)
    (cu : CoherentUnit) : CoherentUnit :=
  RT ((Real.pi * numerator * 2) / denominator) qubitIndex cu

/-- `RXDyad`: the source calls `RX((-M_PI * numerator * 2) / denominator)`. -/
noncomputable def RXDyad (numerator denominator : ℤ) (qubitIndex : ℕ)
    (cu : CoherentUnit) : CoherentUnit :=
  RX ((-Real.pi * numerator * 2) / denominator) qubitIndex cu

/-- `RYDyad`: the source calls `RY((-M_PI * numerator * 2) / denominator)`. -/
noncomputable def RYDyad (numerator denominator : ℤ) (qubitIndex : ℕ)
    (cu : CoherentUnit) : CoherentUnit :=
  RY ((-Real.pi * numerator * 2) / denominator) qubitIndex cu

/-- `RZDyad`: the source calls `RZ((-M_PI * numerator * 2) / denominator)`. -/
noncomputable def RZDyad (numerator denominator : ℤ) (qubitIndex : ℕ)
    (cu : CoherentUnit) : CoherentUnit :=
  RZ ((-Real.pi * numerator * 2) / denominator) qubitIndex cu

/-- `CRT(radians, control, target)`: fails when control equals target. -/
noncomputable def CRT (radians : ℝ) (control target : ℕ) (cu : CoherentUnit) :
    Except (QErr × CoherentUnit) CoherentUnit :=
  if control = target then .error (.invalidArgument, cu)
  else .ok (ApplyControlled2x2 control target
    ⟨1, 0, 0, ⟨Real.cos (radians / 2), Real.sin (radians / 2)⟩⟩ true cu)

/-- `CRX(radians, control, target)`: fails when control equals target. -/
noncomputable def CRX (radians : ℝ) (control target : ℕ) (cu : CoherentUnit) :
    Except (QErr × CoherentUnit) CoherentUnit :=
  if control = target then .error (.invalidArgument, cu)
  else .ok (ApplyControlled2x2 control target
    ⟨⟨Real.cos (radians / 2), 0⟩, ⟨0, -Real.sin (radians / 2)⟩,
      ⟨0, -Real.sin (radians / 2)⟩, ⟨Real.cos (radians / 2), 0⟩⟩ true cu)

/-- `CRY(radians, control, target)`: fails when control equals target. -/
noncomputable def CRY (radians : ℝ) (control target : ℕ) (cu : CoherentUnit) :
    Except (QErr × CoherentUnit) CoherentUnit :=
  if control = target then .error (.invalidArgument, cu)
  else .ok (ApplyControlled2x2 control target
    ⟨⟨Real.cos (radians / 2), 0⟩, ⟨-Real.sin (radians / 2), 0⟩,
      ⟨Real.sin (radians / 2), 0⟩, ⟨Real.cos (radians / 2), 0⟩⟩ true cu)

/-- `CRZ(radians, control, target)`: fails when control equals target. -/
noncomputable def CRZ (radians : ℝ) (control target : ℕ) (cu : CoherentUnit) :
    Except (QErr × CoherentUnit) CoherentUnit :=
  if control = target then .error (.invalidArgument, cu)
  else .ok (ApplyControlled2x2 control target
    ⟨⟨Real.cos (radians / 2), -Real.sin (radians / 2)⟩, 0,
      0, ⟨Real.cos (radians / 2), Real.sin (radians / 2)⟩⟩ true cu)

/-- `CRTDyad`: the source calls `CRT((-M_PI * numerator * 2) / denominator)`
after its own control-equals-target check. -/
noncomputable def CRTDyad (numerator denominator : ℤ) (control target : ℕ)
    (cu : CoherentUnit) : Except (QErr × CoherentUnit) CoherentUnit :=
  if control = target then .error (.invalidArgument, cu)
  else CRT ((-Real.pi * numerator * 2) / denominator) control target cu

/-- `CRXDyad`: the source calls `CRX((-M_PI * numerator * 2) / denominator)`. -/
noncomputable def CRXDyad (numerator denominator : ℤ) (control target : ℕ)
    (cu : CoherentUnit) : Except (QErr × CoherentUnit) CoherentUnit :=
  if control = target then .error (.invalidArgument, cu)
  else CRX ((-Real.pi * numerator * 2) / denominator) control target cu

/-- `CRYDyad`: the source calls `CRY((-M_PI * numerator * 2) / denominator)`. -/
noncomputable def CRYDyad (numerator denominator : ℤ) (control target : ℕ)
    (cu : CoherentUnit) : Except (QErr × CoherentUnit) CoherentUnit :=
  if control = target then .error (.invalidArgument, cu)
  else CRY ((-Real.pi * numerator * 2) / denominator) control target cu

/-- `CRZDyad`: the source calls `CRZ((-M_PI * numerator * 2) / denominator)`. -/
noncomputable def CRZDyad (numerator denominator : ℤ) (control target : ℕ)
    (cu : CoherentUnit) : Except (QErr × CoherentUnit) CoherentUnit :=
  if control = target then .error (.invalidArgument, cu)
  else CRZ ((-Real.pi * numerator * 2) / denominator) control target cu

/-! ### Controlled NOTs, SetBit and the binary logic gates -/

/-- `CNOT(control, target)`: fails when the control is also the target. -/
noncomputable def CNOT (control target : ℕ) (cu : CoherentUnit) :
    Except (QErr × CoherentUnit) CoherentUnit :=
  if control = target then .error (.invalidArgument, cu)
  else .ok (ApplyControlled2x2 control target pauliX false cu)

/-- `AntiCNOT(control, target)`: applies NOT when the control is zero. -/
noncomputable def AntiCNOT (control target : ℕ) (cu : CoherentUnit) :
    Except (QErr × CoherentUnit) CoherentUnit :=
  if control = target then .error (.invalidArgument, cu)
  else .ok (ApplyAntiControlled2x2 control target pauliX false cu)

/-- `CCNOT(control1, control2, target)`: doubly-controlled NOT; fails for
equal controls or a control equal to the target. -/
noncomputable def CCNOT (control1 control2 target : ℕ) (cu : CoherentUnit) :
    Except (QErr × CoherentUnit) CoherentUnit :=
  if control1 = control2 then .error (.invalidArgument, cu)
  else if control1 = target ∨ control2 = target then .error (.invalidArgument, cu)
  else .ok (Apply2x2 (2 ^ control1 + 2 ^ control2 + 2 ^ target)
    (2 ^ control1 + 2 ^ control2) pauliX
    ((2 ^ control1) ||| (2 ^ control2) ||| (2 ^ target)) false cu)

/-- `AntiCCNOT(control1, control2, target)`: NOT when both controls are
zero; same argument checks as `CCNOT`. -/
noncomputable def AntiCCNOT (control1 control2 target : ℕ) (cu : CoherentUnit) :
    Except (QErr × CoherentUnit) CoherentUnit :=
  if control1 = control2 then .error (.invalidArgument, cu)
  else if control1 = target ∨ control2 = target then .error (.invalidArgument, cu)
  else .ok (Apply2x2 0 (2 ^ target) pauliX
    ((2 ^ control1) ||| (2 ^ control2) ||| (2 ^ target)) false cu)

/-- `SetBit(qubitIndex1, value)`: measure the bit and flip it with `X`
when the measured value differs from the requested one. -/
noncomputable def SetBit (u φ : ℝ) (qubitIndex1 : ℕ) (value : Bool)
    (cu : CoherentUnit) : CoherentUnit :=
  let r := M u φ qubitIndex1 cu
  if value ≠ r.1 then X qubitIndex1 r.2 else r.2

/-- `AND(inputBit1, inputBit2, outputBit)`: triple alias is a no-op, any
other overlap of an input with the output throws, otherwise clear the
output and apply `CNOT`/`CCNOT`. -/
noncomputable def AND (u φ : ℝ) (inputBit1 inputBit2 outputBit : ℕ)
    (cu : CoherentUnit) : Except (QErr × CoherentUnit) CoherentUnit :=
  if inputBit1 = inputBit2 ∧ inputBit2 = outputBit then .ok cu
  else if inputBit1 ≠ outputBit ∧ inputBit2 ≠ outputBit then
    let cu1 := SetBit u φ outputBit false cu
    if inputBit1 = inputBit2 then CNOT inputBit1 outputBit cu1
    else CCNOT inputBit1 inputBit2 outputBit cu1
  else .error (.invalidArgument, cu)

/-- `OR(inputBit1, inputBit2, outputBit)`: like `AND` but sets the output
and uses the anti-controlled NOTs. -/
noncomputable def OR (u φ : ℝ) (inputBit1 inputBit2 outputBit : ℕ)
    (cu : CoherentUnit) : Except (QErr × CoherentUnit) CoherentUnit :=
  if inputBit1 = inputBit2 ∧ inputBit2 = outputBit then .ok cu
  else if inputBit1 ≠ outputBit ∧ inputBit2 ≠ outputBit then
    let cu1 := SetBit u φ outputBit true cu
    if inputBit1 = inputBit2 then AntiCNOT inputBit1 outputBit cu1
    else AntiCCNOT inputBit1 inputBit2 outputBit cu1
  else .error (.invalidArgument, cu)

/-- `XOR(inputBit1, inputBit2, outputBit)`: triple alias clears the
output bit; an input equal to the output becomes a `CNOT` from the other
input; otherwise clear the output and apply two `CNOT`s. -/
noncomputable def XOR (u φ : ℝ) (inputBit1 inputBit2 outputBit : ℕ)
    (cu : CoherentUnit) : Except (QErr × CoherentUnit) CoherentUnit :=
  if inputBit1 = inputBit2 ∧ inputBit2 = outputBit then
    .ok (SetBit u φ outputBit false cu)
  else if inputBit1 = outputBit then CNOT inputBit2 outputBit cu
  else if inputBit2 = outputBit then CNOT inputBit1 outputBit cu
  else
    (CNOT inputBit1 outputBit (SetBit u φ outputBit false cu)).bind
      (CNOT inputBit2 outputBit)

/-- Counterexample to claim C6 as stated: `XOR` with `inputBit1 ==
outputBit` and a distinct `inputBit2` (a partial overlap the claim says
must fail with `InvalidArgument`) succeeds: it performs a `CNOT` from the
other input. -/
theorem XOR_alias_no_error :
    (XOR 0 0 0 1 0 ⟨2, fun j => if j = 1 then 1 else 0, 1⟩).isOk = true := by
  simp [XOR, CNOT, Except.isOk, Except.toBool]

/-- Claim C6 (amended): for `AND` and `OR`, `inputBit1 == inputBit2 ==
outputBit` is a no-op (state returned unchanged, no error) and any other
overlap of an input with the output fails with `InvalidArgument` carrying
the unmodified state.  `XOR` never raises `InvalidArgument`: the triple
alias sets the output bit to `|0>` (the correct `x XOR x` result, not a
no-op), and when exactly one input aliases the output it applies a `CNOT`
from the other input. -/
theorem logical_alias_amended (u φ : ℝ) (b1 b2 o : ℕ) (cu : CoherentUnit) :
    (b1 = b2 ∧ b2 = o →
        AND u φ b1 b2 o cu = .ok cu ∧ OR u φ b1 b2 o cu = .ok cu ∧
          XOR u φ b1 b2 o cu = .ok (SetBit u φ o false cu)) ∧
      ((b1 = o ∨ b2 = o) ∧ ¬(b1 = b2 ∧ b2 = o) →
        AND u φ b1 b2 o cu = .error (.invalidArgument, cu) ∧
          OR u φ b1 b2 o cu = .error (.invalidArgument, cu)) ∧
      (b1 = o ∧ b2 ≠ o → XOR u φ b1 b2 o cu = CNOT b2 o cu) ∧
      (b2 = o ∧ b1 ≠ o → XOR u φ b1 b2 o cu = CNOT b1 o cu) := by
  refine ⟨?_, ?_, ?_, ?_⟩
  · rintro ⟨h1, h2⟩
    subst h2
    subst h1
    simp [AND, OR, XOR]
  · rintro ⟨h1, h2⟩
    have hor : ¬(b1 ≠ o ∧ b2 ≠ o) := by tauto
    have hne : ¬(b1 = b2 ∧ b2 = o) := h2
    simp [AND, OR, hne, hor]
  · rintro ⟨h1, h2⟩
    subst h1
    have hne : ¬(b1 = b2 ∧ b2 = b1) := by tauto
    simp [XOR, hne]
  · rintro ⟨h1, h2⟩
    subst h1
    have hne : ¬(b1 = b2 ∧ b2 = b2) := by tauto
    simp [XOR, hne, h2]

/-- Witness for C6 at a concrete input: `AND(0, 1, 1)` and `OR(0, 1, 1)`
on a 2-qubit register hit the partial-overlap branch and fail with
`InvalidArgument` carrying the unmodified state. -/
theorem logical_alias_amended_witness :
    (((0 : ℕ) = 1 ∨ (1 : ℕ) = 1) ∧ ¬((0 : ℕ) = 1 ∧ (1 : ℕ) = 1)) ∧
      (AND 0 0 0 1 1 ⟨2, fun j => if j = 0 then 1 else 0, 1⟩ =
          .error (.invalidArgument, ⟨2, fun j => if j = 0 then 1 else 0, 1⟩) ∧
        OR 0 0 0 1 1 ⟨2, fun j => if j = 0 then 1 else 0, 1⟩ =
          .error (.invalidArgument, ⟨2, fun j => if j = 0 then 1 else 0, 1⟩)) :=
  ⟨by omega,
    (logical_alias_amended 0 0 0 1 1 ⟨2, fun j => if j = 0 then 1 else 0, 1⟩).2.1
      (by omega)⟩

/-! ### BCD arithmetic -/

/-- Scatter over the `par_for_skip` index set: all basis indices with the
`skipMask` bit(s) clear; untouched entries of the zero-filled shadow
buffer stay 0. -/
noncomputable def scatterSkip (n skipMask : ℕ) (target : ℕ → ℕ) (s : ℕ → ℂ) :
    ℕ → ℂ :=
  fun j => ∑ lcv ∈ (Finset.range (2 ^ n)).filter (fun lcv => lcv &&& skipMask = 0),
    if target lcv = j then s lcv else 0

/-- First BCD loop for the add ops: per nibble, `test1` is the state
nibble, `test2` the next decimal digit of the addend; records
`test1 + test2` and the validity flag.  `checkAddend` is true for the
carry variant, which also rejects `test2 > 9`. -/
def bcdScanAdd (inOutInt : ℕ) (checkAddend : Bool) :
    ℕ → ℕ → ℕ → List ℤ × Bool
  | _, _, 0 => ([], true)
  | partToAdd, j, rem + 1 =>
    let test1 : ℕ := (inOutInt &&& (15 <<< (j * 4))) >>> (j * 4)
    let test2 : ℕ := partToAdd % 10
    let rest := bcdScanAdd inOutInt checkAddend (partToAdd / 10) (j + 1) rem
    (((test1 : ℤ) + (test2 : ℤ)) :: rest.1,
      rest.2 && !(decide (9 < test1) || (checkAddend && decide (9 < test2))))

/-- First BCD loop for the subtract ops: records `test1 - test2`; only
`test1 > 9` invalidates. -/
def bcdScanSub (inOutInt : ℕ) :
    ℕ → ℕ → ℕ → List ℤ × Bool
  | _, _, 0 => ([], true)
  | partToSub, j, rem + 1 =>
    let test1 : ℕ := (inOutInt &&& (15 <<< (j * 4))) >>> (j * 4)
    let test2 : ℕ := partToSub % 10
    let rest := bcdScanSub inOutInt (partToSub / 10) (j + 1) rem
    (((test1 : ℤ) - (test2 : ℤ)) :: rest.1, rest.2 && !(decide (9 < test1)))

/-- Second BCD loop for the add ops: propagate decimal carries upward and
assemble `outInt`; the boolean is the carry out of the top nibble. -/
def bcdOutAdd : List ℤ → ℕ → ℤ → ℕ × Bool
  | [], _, _ => (0, false)
  | nib :: rest, j, c =>
    let val := nib + c
    if 9 < val then
      let r := bcdOutAdd rest (j + 1) 1
      (((val - 10).toNat <<< (j * 4)) ||| r.1, if rest.isEmpty then true else r.2)
    else
      let r := bcdOutAdd rest (j + 1) 0
      ((val.toNat <<< (j * 4)) ||| r.1, r.2)

/-- Second BCD loop for the subtract ops: propagate decimal borrows and
assemble `outInt`; the boolean is the borrow out of the top nibble. -/
def bcdOutSub : List ℤ → ℕ → ℤ → ℕ × Bool
  | [], _, _ => (0, false)
  | nib :: rest, j, b =>
    let val := nib - b
    if val < 0 then
      let r := bcdOutSub rest (j + 1) 1
      (((val + 10).toNat <<< (j * 4)) ||| r.1, if rest.isEmpty then true else r.2)
    else
      let r := bcdOutSub rest (j + 1) 0
      ((val.toNat <<< (j * 4)) ||| r.1, r.2)

/-- `INCBCD(toAdd, inOutStart, length)`: BCD add without carry; fails
when `length` is not a multiple of 4; invalid nibbles leave that basis
state at its source index. -/
noncomputable def INCBCD (toAdd inOutStart length : ℕ) (cu : CoherentUnit) :
    Except (QErr × CoherentUnit) CoherentUnit :=
  let nibbleCount := length / 4
  if nibbleCount * 4 ≠ length then .error (.invalidArgument, cu)
  else
    let inOutMask := ((2 ^ length - 1)) <<< inOutStart
    let otherMask := (2 ^ cu.qubitCount - 1) ^^^ inOutMask
    let ns := scatter cu.qubitCount (fun lcv =>
      let otherRes := lcv &&& otherMask
      let inOutInt := (lcv &&& inOutMask) >>> inOutStart
      let scan := bcdScanAdd inOutInt false toAdd 0 nibbleCount
      if scan.2 then ((bcdOutAdd scan.1 0 0).1 <<< inOutStart) ||| otherRes
      else lcv) cu.stateVec
    .ok { cu with stateVec := ns }

/-- `DECBCD(toSub, inOutStart, length)`: BCD subtract without carry; same
length check and invalid-nibble rule as `INCBCD`. -/
noncomputable def DECBCD (toSub inOutStart length : ℕ) (cu : CoherentUnit) :
    Except (QErr × CoherentUnit) CoherentUnit :=
  let nibbleCount := length / 4
  if nibbleCount * 4 ≠ length then .error (.invalidArgument, cu)
  else
    let inOutMask := ((2 ^ length - 1)) <<< inOutStart
    let otherMask := (2 ^ cu.qubitCount - 1) ^^^ inOutMask
    let ns := scatter cu.qubitCount (fun lcv =>
      let otherRes := lcv &&& otherMask
      let inOutInt := (lcv &&& inOutMask) >>> inOutStart
      let scan := bcdScanSub inOutInt toSub 0 nibbleCount
      if scan.2 then ((bcdOutSub scan.1 0 0).1 <<< inOutStart) ||| otherRes
      else lcv) cu.stateVec
    .ok { cu with stateVec := ns }

/-- `INCBCDC(toAdd, inOutStart, length, carryIndex)`: BCD add with carry.
The carry qubit is measured destructively first (and reset with `X` when
set, incrementing the addend); only then is the length validated. -/
noncomputable def INCBCDC (u φ : ℝ) (toAdd0 inOutStart length carryIndex : ℕ)
    (cu0 : CoherentUnit) : Except (QErr × CoherentUnit) CoherentUnit :=
  let m := M u φ carryIndex cu0
  let cu := if m.1 then X carryIndex m.2 else m.2
  let toAdd := if m.1 then toAdd0 + 1 else toAdd0
  let nibbleCount := length / 4
  if nibbleCount * 4 ≠ length then .error (.invalidArgument, cu)
  else
    let inOutMask := ((2 ^ length - 1)) <<< inOutStart
    let carryMask := 2 ^ carryIndex
    let otherMask := (2 ^ cu.qubitCount - 1) ^^^ (inOutMask ||| carryMask)
    let ns := scatterSkip cu.qubitCount carryMask (fun lcv =>
      let otherRes := lcv &&& otherMask
      let inOutInt := (lcv &&& inOutMask) >>> inOutStart
      let scan := bcdScanAdd inOutInt true toAdd 0 nibbleCount
      if scan.2 then
        let out := bcdOutAdd scan.1 0 0
        (out.1 <<< inOutStart) ||| otherRes ||| (if out.2 then carryMask else 0)
      else lcv) cu.stateVec
    .ok { cu with stateVec := ns }

/-- `DECBCDC(toSub, inOutStart, length, carryIndex)`: BCD subtract with
carry; same carry-measurement prefix before the length check. -/
noncomputable def DECBCDC (u φ : ℝ) (toSub0 inOutStart length carryIndex : ℕ)
    (cu0 : CoherentUnit) : Except (QErr × CoherentUnit) CoherentUnit :=
  let m := M u φ carryIndex cu0
  let cu := if m.1 then X carryIndex m.2 else m.2
  let toSub := if m.1 then toSub0 + 1 else toSub0
  let nibbleCount := length / 4
  if nibbleCount * 4 ≠ length then .error (.invalidArgument, cu)
  else
    let inOutMask := ((2 ^ length - 1)) <<< inOutStart
    let carryMask := 2 ^ carryIndex
    let otherMask := (2 ^ cu.qubitCount - 1) ^^^ (inOutMask ||| carryMask)
    let ns := scatterSkip cu.qubitCount carryMask (fun lcv =>
      let otherRes := lcv &&& otherMask
      let inOutInt := (lcv &&& inOutMask) >>> inOutStart
      let scan := bcdScanSub inOutInt toSub 0 nibbleCount
      if scan.2 then
        let out := bcdOutSub scan.1 0 0
        (out.1 <<< inOutStart) ||| otherRes ||| (if out.2 then carryMask else 0)
      else lcv) cu.stateVec
    .ok { cu with stateVec := ns }

/-- Whether a fallible operation failed with `InvalidArgument`. -/
def isArgErr (r : Except (QErr × CoherentUnit) CoherentUnit) : Bool :=
  match r with
  | .error (.invalidArgument, _) => true
  | .ok _ => false

lemma div_mul_four_eq_iff (length : ℕ) : length / 4 * 4 = length ↔ 4 ∣ length := by
  constructor
  · intro h
    exact ⟨length / 4, by omega⟩
  · intro h
    exact Nat.div_mul_cancel h

/-- Claim C7: each of `INCBCD`, `DECBCD`, `INCBCDC` and `DECBCDC` raises
`InvalidArgument` exactly when `length` is not a multiple of 4; for a
multiple of 4 none of them raises this error. -/
theorem BCD_length_check (u φ : ℝ) (k start length carryIndex : ℕ)
    (cu : CoherentUnit) :
    isArgErr (INCBCD k start length cu) = decide (¬ (4 ∣ length)) ∧
      isArgErr (DECBCD k start length cu) = decide (¬ (4 ∣ length)) ∧
      isArgErr (INCBCDC u φ k start length carryIndex cu) = decide (¬ (4 ∣ length)) ∧
      isArgErr (DECBCDC u φ k start length carryIndex cu) = decide (¬ (4 ∣ length)) := by
  by_cases h : length / 4 * 4 = length
  · have hd : 4 ∣ length := (div_mul_four_eq_iff length).mp h
    refine ⟨?_, ?_, ?_, ?_⟩ <;>
      simp [INCBCD, DECBCD, INCBCDC, DECBCDC, isArgErr, h, hd]
  · have hd : ¬ (4 ∣ length) := fun hdvd => h ((div_mul_four_eq_iff length).mpr hdvd)
    refine ⟨?_, ?_, ?_, ?_⟩ <;>
      simp [INCBCD, DECBCD, INCBCDC, DECBCDC, isArgErr, h, hd]

/-- The state carried by a fallible operation's outcome: the final state
on success, the state at the moment of the throw on error. -/
def carriedState (r : Except (QErr × CoherentUnit) CoherentUnit) : CoherentUnit :=
  match r with
  | .error (_, c) => c
  | .ok c => c

/-- A 2-qubit register in basis state `|10>` (carry qubit 1 set). -/
def cuC9 : CoherentUnit := ⟨2, fun j => if j = 2 then 1 else 0, 1⟩

lemma probC9 : Prob 1 cuC9 = 1 := by
  unfold Prob maxQPower cuC9
  rw [Finset.sum_filter]
  norm_num [Finset.sum_range_succ]

lemma MC9_fst : (M 0 0 1 cuC9).1 = true := by
  norm_num [M, show cuC9.runningNorm = 1 from rfl, probC9]

lemma MC9_sv0 : (M 0 0 1 cuC9).2.stateVec 0 = 0 := by
  norm_num [M, show cuC9.runningNorm = 1 from rfl, probC9, UpdateRunningNorm]

lemma XC9 : (X 1 (M 0 0 1 cuC9).2).stateVec 2 = 0 := by
  simp only [X, ApplySingleBit, Apply2x2, pauliX]
  norm_num [MC9_sv0]

/-- Claim C9: when `INCBCDC` or `DECBCDC` is called with a length that is
not a multiple of 4, `InvalidArgument` is raised only after the carry
qubit has been measured and (if set) reset with `X`, so the state carried
by the propagating exception is the post-measurement state, not the
pre-call state; on the concrete register `|10>` the amplitude at index 2
has already been moved when either op's error propagates. -/
theorem BCDC_error_after_measurement :
    (∀ (u φ : ℝ) (toAdd inOutStart length carryIndex : ℕ) (cu : CoherentUnit),
        length / 4 * 4 ≠ length →
          INCBCDC u φ toAdd inOutStart length carryIndex cu =
            .error (.invalidArgument,
              if (M u φ carryIndex cu).1 then X carryIndex (M u φ carryIndex cu).2
              else (M u φ carryIndex cu).2)) ∧
      (∀ (u φ : ℝ) (toSub inOutStart length carryIndex : ℕ) (cu : CoherentUnit),
        length / 4 * 4 ≠ length →
          DECBCDC u φ toSub inOutStart length carryIndex cu =
            .error (.invalidArgument,
              if (M u φ carryIndex cu).1 then X carryIndex (M u φ carryIndex cu).2
              else (M u φ carryIndex cu).2)) ∧
      ((carriedState (INCBCDC 0 0 1 0 1 1 cuC9)).stateVec 2 = 0 ∧
        (carriedState (DECBCDC 0 0 1 0 1 1 cuC9)).stateVec 2 = 0 ∧
        cuC9.stateVec 2 = 1) := by
  refine ⟨?_, ?_, ?_, ?_, ?_⟩
  · intro u φ toAdd inOutStart length carryIndex cu h
    simp [INCBCDC, h]
  · intro u φ toSub inOutStart length carryIndex cu h
    simp [DECBCDC, h]
  · have h1 : (1 : ℕ) / 4 * 4 ≠ 1 := by norm_num
    simp only [INCBCDC, h1, if_pos, MC9_fst, if_true, carriedState]
    exact XC9
  · have h1 : (1 : ℕ) / 4 * 4 ≠ 1 := by norm_num
    simp only [DECBCDC, h1, if_pos, MC9_fst, if_true, carriedState]
    exact XC9
  · norm_num [cuC9]

/-- Witness for C9: the general error-shape clauses for both carry
variants applied at the concrete input. -/
theorem BCDC_error_after_measurement_witness :
    (1 : ℕ) / 4 * 4 ≠ 1 ∧
      INCBCDC 0 0 1 0 1 1 cuC9 =
        .error (.invalidArgument,
          if (M 0 0 1 cuC9).1 then X 1 (M 0 0 1 cuC9).2 else (M 0 0 1 cuC9).2) ∧
      DECBCDC 0 0 1 0 1 1 cuC9 =
        .error (.invalidArgument,
          if (M 0 0 1 cuC9).1 then X 1 (M 0 0 1 cuC9).2 else (M 0 0 1 cuC9).2) :=
  ⟨by norm_num,
    BCDC_error_after_measurement.1 0 0 1 0 1 1 cuC9 (by norm_num),
    BCDC_error_after_measurement.2.1 0 0 1 0 1 1 cuC9 (by norm_num)⟩

/-! ### Measurement: the single-qubit gate M -/

lemma and_two_pow_zero_iff (lcv q : ℕ) :
    lcv &&& 2 ^ q = 0 ↔ ¬(lcv &&& 2 ^ q = 2 ^ q) := by
  have hpow : (2 : ℕ) ^ q ≠ 0 := (Nat.pos_pow_of_pos q (by norm_num)).ne'
  rw [Nat.and_two_pow]
  cases h : lcv.testBit q
  · simp [h, Ne.symm hpow]
  · simp [h, hpow]

lemma Prob_nonneg (q : ℕ) (cu : CoherentUnit) : 0 ≤ Prob q cu :=
  Finset.sum_nonneg fun _ _ => Complex.normSq_nonneg _

lemma Prob_le_one (q : ℕ) (cu : CoherentUnit)
    (hnorm : ∑ j ∈ Finset.range (maxQPower cu), Complex.normSq (cu.stateVec j) = 1) :
    Prob q cu ≤ 1 := by
  rw [← hnorm]
  exact Finset.sum_le_sum_of_subset_of_nonneg (Finset.filter_subset _ _)
    (fun _ _ _ => Complex.normSq_nonneg _)

lemma sum_bitset (q : ℕ) (cu : CoherentUnit) :
    (∑ j ∈ Finset.range (maxQPower cu),
        if j &&& 2 ^ q = 0 then 0 else Complex.normSq (cu.stateVec j)) =
      Prob q cu := by
  unfold Prob
  rw [Finset.sum_filter]
  refine Finset.sum_congr rfl fun j _ => ?_
  by_cases h : j &&& 2 ^ q = 2 ^ q
  · rw [if_pos h, if_neg (fun h0 => ((and_two_pow_zero_iff j q).mp h0) h)]
  · rw [if_neg h, if_pos ((and_two_pow_zero_iff j q).mpr h)]

lemma sum_bitclear (q : ℕ) (cu : CoherentUnit)
    (hnorm : ∑ j ∈ Finset.range (maxQPower cu), Complex.normSq (cu.stateVec j) = 1) :
    (∑ j ∈ Finset.range (maxQPower cu),
        if j &&& 2 ^ q = 0 then Complex.normSq (cu.stateVec j) else 0) =
      1 - Prob q cu := by
  have hsplit := Finset.sum_filter_add_sum_filter_not (Finset.range (maxQPower cu))
    (fun j => j &&& 2 ^ q = 2 ^ q) (fun j => Complex.normSq (cu.stateVec j))
  rw [hnorm] at hsplit
  have h2 : (∑ j ∈ (Finset.range (maxQPower cu)).filter
      (fun j => ¬(j &&& 2 ^ q = 2 ^ q)), Complex.normSq (cu.stateVec j)) =
        ∑ j ∈ Finset.range (maxQPower cu),
          if j &&& 2 ^ q = 0 then Complex.normSq (cu.stateVec j) else 0 := by
    rw [Finset.sum_filter]
    refine Finset.sum_congr rfl fun j _ => ?_
    by_cases h : j &&& 2 ^ q = 2 ^ q
    · rw [if_neg (by simpa using h), if_neg (fun h0 => ((and_two_pow_zero_iff j q).mp h0) h)]
    · rw [if_pos (by simpa using h), if_pos ((and_two_pow_zero_iff j q).mpr h)]
  have hProb : (∑ j ∈ (Finset.range (maxQPower cu)).filter
      (fun j => j &&& 2 ^ q = 2 ^ q), Complex.normSq (cu.stateVec j)) = Prob q cu := rfl
  rw [h2, hProb] at hsplit
  linarith

lemma normSq_phase_div (φ c : ℝ) :
    Complex.normSq ((⟨Real.cos φ, Real.sin φ⟩ : ℂ) / (c : ℂ)) = 1 / (c * c) := by
  rw [Complex.normSq_div, Complex.normSq_mk, Complex.normSq_ofReal]
  have h : Real.cos φ * Real.cos φ + Real.sin φ * Real.sin φ = 1 := by
    have := Real.sin_sq_add_cos_sq φ
    nlinarith
  rw [h]

lemma M_true_eval (u φ : ℝ) (q : ℕ) (cu : CoherentUnit) (hrn : cu.runningNorm = 1)
    (hup : u < Prob q cu) (hppos : 0 < Prob q cu) :
    M u φ q cu = (true, UpdateRunningNorm
      { cu with stateVec := fun lcv =>
          if lcv &&& 2 ^ q = 0 then 0
          else ((⟨Real.cos φ, Real.sin φ⟩ : ℂ) / ((Prob q cu : ℝ) : ℂ)) *
            cu.stateVec lcv }) := by
  simp only [M, hrn, eq_self_iff_true, if_true, decide_eq_true hup,
    decide_eq_true hppos, Bool.and_self, if_pos hppos]

lemma M_false_eval (u φ : ℝ) (q : ℕ) (cu : CoherentUnit) (hrn : cu.runningNorm = 1)
    (hup : ¬(u < Prob q cu)) (hplt : Prob q cu < 1) :
    M u φ q cu = (false, UpdateRunningNorm
      { cu with stateVec := fun lcv =>
          if lcv &&& 2 ^ q = 0
          then ((⟨Real.cos φ, Real.sin φ⟩ : ℂ) /
              ((Real.sqrt (1 - Prob q cu) : ℝ) : ℂ)) * cu.stateVec lcv
          else 0 }) := by
  simp only [M, hrn, eq_self_iff_true, if_true, decide_eq_false hup,
    Bool.false_and, Bool.false_eq_true, if_false, if_pos hplt]

lemma sum_collapse_true (φ : ℝ) (q : ℕ) (cu : CoherentUnit) (hppos : 0 < Prob q cu) :
    (∑ j ∈ Finset.range (maxQPower cu), Complex.normSq
        (if j &&& 2 ^ q = 0 then 0
         else ((⟨Real.cos φ, Real.sin φ⟩ : ℂ) / ((Prob q cu : ℝ) : ℂ)) *
           cu.stateVec j)) = 1 / Prob q cu := by
  have h1 : ∀ j, Complex.normSq
      (if j &&& 2 ^ q = 0 then 0
       else ((⟨Real.cos φ, Real.sin φ⟩ : ℂ) / ((Prob q cu : ℝ) : ℂ)) * cu.stateVec j) =
        (1 / (Prob q cu * Prob q cu)) *
          (if j &&& 2 ^ q = 0 then 0 else Complex.normSq (cu.stateVec j)) := by
    intro j
    by_cases h : j &&& 2 ^ q = 0
    · simp [h]
    · rw [if_neg h, if_neg h, Complex.normSq_mul, normSq_phase_div]
  rw [Finset.sum_congr rfl (fun j _ => h1 j), ← Finset.mul_sum, sum_bitset]
  field_simp

lemma sum_collapse_false (φ : ℝ) (q : ℕ) (cu : CoherentUnit)
    (hnorm : ∑ j ∈ Finset.range (maxQPower cu), Complex.normSq (cu.stateVec j) = 1)
    (hplt : Prob q cu < 1) :
    (∑ j ∈ Finset.range (maxQPower cu), Complex.normSq
        (if j &&& 2 ^ q = 0
         then ((⟨Real.cos φ, Real.sin φ⟩ : ℂ) /
             ((Real.sqrt (1 - Prob q cu) : ℝ) : ℂ)) * cu.stateVec j
         else 0)) = 1 := by
  have h1 : ∀ j, Complex.normSq
      (if j &&& 2 ^ q = 0
       then ((⟨Real.cos φ, Real.sin φ⟩ : ℂ) /
           ((Real.sqrt (1 - Prob q cu) : ℝ) : ℂ)) * cu.stateVec j
       else 0) =
        (1 / (1 - Prob q cu)) *
          (if j &&& 2 ^ q = 0 then Complex.normSq (cu.stateVec j) else 0) := by
    intro j
    by_cases h : j &&& 2 ^ q = 0
    · rw [if_pos h, if_pos h, Complex.normSq_mul, normSq_phase_div,
        Real.mul_self_sqrt (by linarith)]
    · simp [h]
  rw [Finset.sum_congr rfl (fun j _ => h1 j), ← Finset.mul_sum, sum_bitclear q cu hnorm,
    one_div, inv_mul_cancel₀ (by linarith : (1 : ℝ) - Prob q cu ≠ 0)]

/-- Claim C1 (amended): `M(q)` draws `u`, computes `p = Prob(q)`, returns
`u < p` and zeroes every amplitude whose basis index disagrees with the
result on bit `q`.  When the result is TRUE, the surviving amplitudes are
multiplied by `e^{i phi} / p` (no square root) and `runningNorm` is left
at `1 / sqrt p` on return; when the result is FALSE, the surviving
amplitudes are multiplied by `e^{i phi} / sqrt(1-p)` and `runningNorm` is
1 on return. -/
theorem M_collapse_amended (u φ : ℝ) (q : ℕ) (cu : CoherentUnit)
    (hrn : cu.runningNorm = 1)
    (hnorm : ∑ j ∈ Finset.range (maxQPower cu), Complex.normSq (cu.stateVec j) = 1)
    (hu0 : 0 ≤ u) (hu1 : u < 1) :
    (M u φ q cu).1 = decide (u < Prob q cu) ∧
      (u < Prob q cu →
        (∀ lcv, (M u φ q cu).2.stateVec lcv =
            if lcv &&& 2 ^ q = 0 then 0
            else ((⟨Real.cos φ, Real.sin φ⟩ : ℂ) / ((Prob q cu : ℝ) : ℂ)) *
              cu.stateVec lcv) ∧
          (M u φ q cu).2.runningNorm = 1 / Real.sqrt (Prob q cu)) ∧
      (¬(u < Prob q cu) →
        (∀ lcv, (M u φ q cu).2.stateVec lcv =
            if lcv &&& 2 ^ q = 0
            then ((⟨Real.cos φ, Real.sin φ⟩ : ℂ) /
                ((Real.sqrt (1 - Prob q cu) : ℝ) : ℂ)) * cu.stateVec lcv
            else 0) ∧
          (M u φ q cu).2.runningNorm = 1) := by
  have hp0 : 0 ≤ Prob q cu := Prob_nonneg q cu
  by_cases hup : u < Prob q cu
  · have hppos : 0 < Prob q cu := lt_of_le_of_lt hu0 hup
    rw [M_true_eval u φ q cu hrn hup hppos]
    refine ⟨by simp [decide_eq_true hup], fun _ => ⟨fun lcv => rfl, ?_⟩, fun h => absurd hup h⟩
    have hnormval := sum_collapse_true φ q cu hppos
    simp only [maxQPower] at hnormval
    simp only [UpdateRunningNorm, maxQPower]
    rw [hnormval, one_div, Real.sqrt_inv, one_div]
  · have hplt : Prob q cu < 1 := lt_of_le_of_lt (not_lt.mp hup) hu1
    rw [M_false_eval u φ q cu hrn hup hplt]
    refine ⟨by simp [decide_eq_false hup], fun h => absurd h hup, fun _ => ⟨fun lcv => rfl, ?_⟩⟩
    have hnormval := sum_collapse_false φ q cu hnorm hplt
    simp only [maxQPower] at hnormval
    simp only [UpdateRunningNorm, maxQPower]
    rw [hnormval, Real.sqrt_one]

/-- A normalized 1-qubit register with amplitudes `(4/5, 3/5)`. -/
noncomputable def cuC1 : CoherentUnit :=
  ⟨1, fun j => if j = 0 then ((4 / 5 : ℝ) : ℂ) else if j = 1 then ((3 / 5 : ℝ) : ℂ) else 0, 1⟩

lemma probC1 : Prob 0 cuC1 = 9 / 25 := by
  unfold Prob maxQPower cuC1
  rw [Finset.sum_filter]
  norm_num [Finset.sum_range_succ, Complex.normSq_ofReal]

lemma normC1 : (∑ j ∈ Finset.range (maxQPower cuC1), Complex.normSq (cuC1.stateVec j)) = 1 := by
  unfold maxQPower cuC1
  norm_num [Finset.sum_range_succ, Complex.normSq_ofReal]

/-- Counterexample to claim C1 as stated: measuring qubit 0 of the
normalized state `(4/5)|0> + (3/5)|1>` with draw `u = 1/5 < p = 9/25`
returns true but leaves `runningNorm = 5/3`, not 1 (the source divides
the surviving amplitudes by the retained probability `9/25` instead of
its square root). -/
theorem M_runningNorm_counterexample :
    (M (1 / 5) 0 0 cuC1).2.runningNorm ≠ 1 := by
  have hup : (1 / 5 : ℝ) < Prob 0 cuC1 := by rw [probC1]; norm_num
  have hppos : (0 : ℝ) < Prob 0 cuC1 := by rw [probC1]; norm_num
  rw [M_true_eval (1 / 5) 0 0 cuC1 rfl hup hppos]
  simp only [UpdateRunningNorm, maxQPower]
  have hsum : (∑ j ∈ Finset.range (2 ^ cuC1.qubitCount), Complex.normSq
      (if j &&& 2 ^ 0 = 0 then 0
       else ((⟨Real.cos 0, Real.sin 0⟩ : ℂ) / ((Prob 0 cuC1 : ℝ) : ℂ)) *
         cuC1.stateVec j)) = 25 / 9 := by
    rw [show cuC1.qubitCount = 1 from rfl]
    norm_num [Finset.sum_range_succ, probC1, Complex.normSq_mul, Complex.normSq_div,
      Complex.normSq_mk, Complex.normSq_ofReal, Real.cos_zero, Real.sin_zero,
      show cuC1.stateVec 1 = ((3 / 5 : ℝ) : ℂ) from rfl,
      show cuC1.stateVec 0 = ((4 / 5 : ℝ) : ℂ) from rfl]
  rw [hsum, show (25 / 9 : ℝ) = (5 / 3) ^ 2 by norm_num,
    Real.sqrt_sq (by norm_num : (0 : ℝ) ≤ 5 / 3)]
  norm_num

/-- Witness for C1 (amended) at a concrete input: the hypotheses hold for
the normalized register `(4/5)|0> + (3/5)|1>` with `u = 1/5`, and the
measurement result is `decide (u < p)`. -/
theorem M_collapse_amended_witness :
    cuC1.runningNorm = 1 ∧
      (∑ j ∈ Finset.range (maxQPower cuC1), Complex.normSq (cuC1.stateVec j)) = 1 ∧
      (0 : ℝ) ≤ 1 / 5 ∧ (1 / 5 : ℝ) < 1 ∧
      (M (1 / 5) 0 0 cuC1).1 = decide ((1 / 5 : ℝ) < Prob 0 cuC1) :=
  ⟨rfl, normC1, by norm_num, by norm_num,
    (M_collapse_amended (1 / 5) 0 0 cuC1 rfl normC1 (by norm_num) (by norm_num)).1⟩

/-! ### Register measurement: MReg -/

/-- The marginal distribution over register values accumulated by `MReg`:
`probArray[(lcv & regMask) >> start] += norm(stateVec[lcv])`.  The source
allocates only `lengthPower` slots; this total function returns 0 beyond
them (the source's out-of-range reads are unreachable for a normalized
state and a draw below 1). -/
noncomputable def mregProbArray (start length : ℕ) (cu : CoherentUnit) : ℕ → ℝ :=
  fun v => ∑ lcv ∈ Finset.range (maxQPower cu),
    if (lcv &&& ((2 ^ length - 1) <<< start)) >>> start = v
    then Complex.normSq (cu.stateVec lcv) else 0

/-- The cumulative selection loop of `MReg`: walk the outcomes, stop at
the first whose cumulative probability exceeds the draw, and track the
largest-probability outcome as the fallback.  Arguments after the draw:
fuel (`maxQPower - lcv` iterations remain), `lcv`, `lowerProb`,
`largestProb`, `result`, `nrmlzr` (the last starts out uninitialized in
the source, here an explicit parameter). -/
noncomputable def mregLoop (probArray : ℕ → ℝ) (prob : ℝ) :
    ℕ → ℕ → ℝ → ℝ → ℕ → ℝ → ℕ × ℝ
  | 0, _, _, _, result, nrmlzr => (result, nrmlzr)
  | fuel + 1, lcv, lowerProb, largestProb, result, nrmlzr =>
    if probArray lcv + lowerProb > prob then (lcv, probArray lcv)
    else if largestProb ≤ probArray lcv then
      mregLoop probArray prob fuel (lcv + 1) (lowerProb + probArray lcv)
        (probArray lcv) lcv (probArray lcv)
    else
      mregLoop probArray prob fuel (lcv + 1) (lowerProb + probArray lcv)
        largestProb result nrmlzr

/-- `MReg(start, length)`: measure the permutation state of a register.
`u` is the sampling draw, `φ` the fresh phase, `g` the initial (source:
uninitialized) value of `nrmlzr`.  The collapse keeps the amplitudes at
indices `lcv` with `(lcv & resultPtr) == resultPtr`. -/
noncomputable def MReg (u φ g : ℝ) (start length : ℕ) (cu0 : CoherentUnit) :
    ℕ × CoherentUnit :=
  if length = 1 then
    let r := M u φ start cu0
    (if r.1 then 1 else 0, r.2)
  else
    let cu := if cu0.runningNorm = 1 then cu0 else NormalizeState cu0
    let lengthPower := 2 ^ length
    let sel := mregLoop (mregProbArray start length cu) u (maxQPower cu)
      0 0 0 (lengthPower - 1) g
    let resultPtr := sel.1 <<< start
    let nrm : ℂ := (⟨Real.cos φ, Real.sin φ⟩ : ℂ) / ((sel.2 : ℝ) : ℂ)
    (sel.1, UpdateRunningNorm
      { cu with stateVec := fun lcv =>
          if lcv &&& resultPtr = resultPtr then nrm * cu.stateVec lcv else 0 })

/-- A normalized 2-qubit register with amplitudes `3/5` at index 0 and
`4/5` at index 3. -/
noncomputable def cuC2 : CoherentUnit :=
  ⟨2, fun j => if j = 0 then ((3 / 5 : ℝ) : ℂ) else if j = 3 then ((4 / 5 : ℝ) : ℂ) else 0, 1⟩

lemma probArrayC2_zero : mregProbArray 0 2 cuC2 0 = 9 / 25 := by
  unfold mregProbArray maxQPower cuC2
  norm_num [Finset.sum_range_succ, Complex.normSq_ofReal]

/-- Claim C2 fails on the code: measuring the register `(0, 2)` of the
normalized state `(3/5)|00> + (4/5)|11>` with draw `u = 1/5` returns 0,
but the collapse test `(lcv & resultPtr) == resultPtr` with
`resultPtr = 0` keeps every amplitude, so index 3 - whose register value
3 differs from the result 0 - still holds the nonzero amplitude
`(25/9)(4/5)`; a repeated `MReg` is therefore not deterministic. -/
theorem MReg_collapse_eval :
    (MReg (1 / 5) 0 0 0 2 cuC2).1 = 0 ∧
      (3 &&& ((2 ^ 2 - 1) <<< 0)) >>> 0 ≠ 0 ∧
      (MReg (1 / 5) 0 0 0 2 cuC2).2.stateVec 3 ≠ 0 := by
  have hloop : mregLoop (mregProbArray 0 2 cuC2) (1 / 5) (maxQPower cuC2)
      0 0 0 (2 ^ 2 - 1) 0 = (0, 9 / 25) := by
    rw [show maxQPower cuC2 = 4 from rfl]
    rw [show (4 : ℕ) = 3 + 1 from rfl]
    simp only [mregLoop, probArrayC2_zero]
    norm_num
  refine ⟨?_, by norm_num, ?_⟩
  · simp only [MReg, show cuC2.runningNorm = 1 from rfl, if_pos, eq_self_iff_true,
      if_true, OfNat.ofNat_ne_one, if_false, hloop]
  · simp only [MReg, show cuC2.runningNorm = 1 from rfl, if_pos, eq_self_iff_true,
      if_true, OfNat.ofNat_ne_one, if_false, hloop, UpdateRunningNorm]
    norm_num [Complex.ext_iff, Real.cos_zero, Real.sin_zero,
      show cuC2.stateVec 3 = ((4 / 5 : ℝ) : ℂ) from rfl]

/-! ### Indexed classical-memory load: SuperposedADC -/

/-- Assemble `valueBytes` little-endian bytes from the classical table:
`outputInt |= values[base + j] << (8 * j)`. -/
def ldaLoad (values : ℕ → ℕ) (base : ℕ) : ℕ → ℕ
  | 0 => 0
  | j + 1 => ldaLoad values base j ||| (values (base + j) <<< (8 * j))

/-- The C cast `(unsigned char)(x)` for the nonnegative values arising
here: truncate and reduce mod 256. -/
noncomputable def toByteCast (x : ℝ) : ℕ := (Int.toNat ⌊x⌋) % 256

/-- `SuperposedADC(indexStart, indexLength, valueStart, valueLength,
carryIndex, values)`: measure the carry in, add the table byte(s)
addressed by the index register plus the carry to the value register
modulo `2^valueLength`, write carry out.  `avgInit` is the initial value
of the accumulator `average`, which the source reads UNINITIALIZED; the
returned byte is `(unsigned char)(average + 0.5)`. -/
noncomputable def SuperposedADC (u φ avgInit : ℝ)
    (indexStart indexLength valueStart valueLength carryIndex : ℕ)
    (values : ℕ → ℕ) (cu0 : CoherentUnit) : ℕ × CoherentUnit :=
  let carry := M u φ carryIndex cu0
  let cu := if carry.1 then X carryIndex carry.2 else carry.2
  let carryIn : ℕ := if carry.1 then 1 else 0
  let valueBytes := (valueLength + 7) / 8
  let lengthPower := 2 ^ valueLength
  let carryMask := 2 ^ carryIndex
  let inputMask := ((2 ^ indexLength - 1)) <<< indexStart
  let outputMask := ((2 ^ valueLength - 1)) <<< valueStart
  let otherMask := (2 ^ cu.qubitCount - 1) ^^^
    ((2 ^ cu.qubitCount - 1) &&& (inputMask ||| outputMask))
  let nState := scatterSkip cu.qubitCount carryMask (fun lcv =>
    let otherRes := lcv &&& otherMask
    let inputRes := lcv &&& inputMask
    let inputInt := inputRes >>> indexStart
    let outputRes0 := lcv &&& outputMask
    let outputInt0 := ldaLoad values (inputInt * valueBytes) valueBytes +
      (outputRes0 >>> valueStart) + carryIn
    let outputInt := if lengthPower ≤ outputInt0 then outputInt0 - lengthPower
      else outputInt0
    let carryRes := if lengthPower ≤ outputInt0 then carryMask else 0
    (outputInt <<< valueStart) ||| inputRes ||| otherRes ||| carryRes) cu.stateVec
  let average := avgInit + ∑ i ∈ Finset.range (maxQPower cu),
    Complex.normSq (nState i) * (((i &&& outputMask) >>> valueStart : ℕ) : ℝ)
  (toByteCast (average + 1 / 2), { cu with stateVec := nState })

/-- A 2-qubit register in `|00>` (value qubit 0, carry qubit 1). -/
noncomputable def cuC8 : CoherentUnit := ⟨2, fun j => if j = 0 then 1 else 0, 1⟩

lemma probC8 : Prob 1 cuC8 = 0 := by
  unfold Prob maxQPower cuC8
  rw [Finset.sum_filter]
  norm_num [Finset.sum_range_succ]

lemma MC8_fst : (M 0 0 1 cuC8).1 = false := by
  rw [M_false_eval 0 0 1 cuC8 rfl (by rw [probC8]; norm_num) (by rw [probC8]; norm_num)]

lemma MC8_snd : (M 0 0 1 cuC8).2 = UpdateRunningNorm
    { cuC8 with stateVec := fun lcv =>
        if lcv &&& 2 ^ 1 = 0
        then ((⟨Real.cos 0, Real.sin 0⟩ : ℂ) /
            ((Real.sqrt (1 - Prob 1 cuC8) : ℝ) : ℂ)) * cuC8.stateVec lcv
        else 0 } := by
  rw [M_false_eval 0 0 1 cuC8 rfl (by rw [probC8]; norm_num) (by rw [probC8]; norm_num)]

lemma MC8_sv : ∀ lcv, (M 0 0 1 cuC8).2.stateVec lcv = cuC8.stateVec lcv := by
  intro lcv
  rw [MC8_snd]
  show (if lcv &&& 2 ^ 1 = 0
      then ((⟨Real.cos 0, Real.sin 0⟩ : ℂ) /
          ((Real.sqrt (1 - Prob 1 cuC8) : ℝ) : ℂ)) * cuC8.stateVec lcv
      else 0) = cuC8.stateVec lcv
  by_cases h : lcv &&& 2 ^ 1 = 0
  · rw [if_pos h, probC8]
    norm_num [Real.cos_zero, Real.sin_zero, Complex.ext_iff]
  · rw [if_neg h]
    have hne : lcv ≠ 0 := by
      intro h0
      rw [h0] at h
      exact h rfl
    show 0 = cuC8.stateVec lcv
    unfold cuC8
    simp [hne]

lemma MC8_qc : (M 0 0 1 cuC8).2.qubitCount = 2 := by
  rw [MC8_snd]
  rfl

lemma superADC_eval (avgInit : ℝ) :
    (SuperposedADC 0 0 avgInit 0 0 0 1 1 (fun i => if i = 0 then 1 else 0) cuC8).1 =
      toByteCast (avgInit + 1 + 1 / 2) := by
  simp only [SuperposedADC, MC8_fst, Bool.false_eq_true, if_false, maxQPower, MC8_qc]
  norm_num [scatterSkip, Finset.sum_filter, Finset.sum_range_succ, ldaLoad, MC8_sv,
    show cuC8.stateVec 0 = 1 from rfl, show cuC8.stateVec 1 = 0 from rfl,
    show cuC8.stateVec 3 = 0 from rfl]

/-- Claim C8 fails on the code: the convenience return value of
`SuperposedADC` (and likewise `SuperposedLDA` / `SuperposedSBC`) is
accumulated into the local `average` that the source reads before
initializing, so the returned byte is
`(unsigned char)(garbage + expectation + 0.5)`; with garbage 7 the call
below returns 8 although the expectation value of the value register
rounds to 1 (the value returned when the accumulator happens to start at
0). -/
theorem SuperposedADC_uninit_average :
    (SuperposedADC 0 0 7 0 0 0 1 1 (fun i => if i = 0 then 1 else 0) cuC8).1 = 8 ∧
      (SuperposedADC 0 0 0 0 0 0 1 1 (fun i => if i = 0 then 1 else 0) cuC8).1 = 1 ∧
      (8 : ℕ) ≠ 1 := by
  refine ⟨?_, ?_, by norm_num⟩
  · rw [superADC_eval 7]
    unfold toByteCast
    norm_num
    decide
  · rw [superADC_eval 0]
    unfold toByteCast
    norm_num

/-- Counterexample to claim C5 as stated: `RTDyad(1, 2)` is not the
radian rotation at angle `(-pi * 1 * 2) / 2`; on the basis state `|1>`
the former multiplies the amplitude by `e^{i pi/2} = i`, the latter by
`e^{-i pi/2} = -i`. -/
theorem RTDyad_sign_counterexample :
    RTDyad 1 2 0 ⟨1, fun j => if j = 1 then 1 else 0, 1⟩ ≠
      RT ((-Real.pi * ((1 : ℤ) : ℝ) * 2) / ((2 : ℤ) : ℝ)) 0
        ⟨1, fun j => if j = 1 then 1 else 0, 1⟩ := by
  intro h
  have h1 := congrArg (fun c => (c.stateVec 1).im) h
  simp only [RTDyad, RT, ApplySingleBit, Apply2x2] at h1
  norm_num at h1
  rw [show -(Real.pi * 2) / 2 / 2 = -(Real.pi / 2) by ring,
      Real.sin_neg, Real.sin_pi_div_two] at h1
  norm_num at h1

/-- Claim C5 (amended): `RTDyad(p, q)` routes to `RT` with the angle
`(+pi * p * 2) / q` (sign NOT reversed from the radian operator), while
`RXDyad`, `RYDyad`, `RZDyad`, `CRTDyad`, `CRXDyad`, `CRYDyad` and
`CRZDyad` route to their radian counterparts with angle
`(-pi * p * 2) / q` as the claim states; in no case is there a further
division by two. -/
theorem dyadic_rotation_angles (p q : ℤ) (i c t : ℕ) (cu : CoherentUnit) :
    RTDyad p q i cu = RT ((Real.pi * p * 2) / q) i cu ∧
      RXDyad p q i cu = RX ((-Real.pi * p * 2) / q) i cu ∧
      RYDyad p q i cu = RY ((-Real.pi * p * 2) / q) i cu ∧
      RZDyad p q i cu = RZ ((-Real.pi * p * 2) / q) i cu ∧
      CRTDyad p q c t cu = CRT ((-Real.pi * p * 2) / q) c t cu ∧
      CRXDyad p q c t cu = CRX ((-Real.pi * p * 2) / q) c t cu ∧
      CRYDyad p q c t cu = CRY ((-Real.pi * p * 2) / q) c t cu ∧
      CRZDyad p q c t cu = CRZ ((-Real.pi * p * 2) / q) c t cu := by
  refine ⟨rfl, rfl, rfl, rfl, ?_, ?_, ?_, ?_⟩ <;>
    · by_cases h : c = t <;>
        simp [CRTDyad, CRXDyad, CRYDyad, CRZDyad, CRT, CRX, CRY, CRZ, h]

/-- Claim C10: `INC` with an addend that is a multiple of `2^length` (in
particular congruent to 0 mod `2^length`), or with `length = 0`, is a
no-op on the whole register, and likewise for `DEC`. -/
theorem INC_DEC_zero_noop (cu : CoherentUnit) (k start length : ℕ) :
    INC (k * 2 ^ length) start length cu = cu ∧
      DEC (k * 2 ^ length) start length cu = cu ∧
      INC k start 0 cu = cu ∧
      DEC k start 0 cu = cu := by
  refine ⟨?_, ?_, ?_, ?_⟩ <;> simp [INC, DEC, Nat.mul_mod_left]

end Qrack
